import Mathlib

/-!
Verification of the noisy-shuttle tunnel handshake orchestration.

The development shallowly embeds the handshake logic of
`src/tunnel/src/client.rs`, `src/tunnel/src/server.rs` and
`src/snowy-tunnel/src/client.rs`.  Bytes are modelled as natural numbers
(always below 256 in practice; XOR is `Nat.xor`), byte buffers as `List Nat`.
External collaborators that are not part of the repository sources (the Noise
library, HMAC, the TOTP module `totp.rs`, `derive_psk` from `common.rs`) are
modelled from the specification; their definitions carry a
`Modelled from the spec:` note.
-/

namespace NoisyShuttle

set_option maxRecDepth 16000

/-- Byte buffers: lists of naturals (each byte is below 256 in practice). -/
abbrev Bytes := List Nat

/-- Bytewise XOR of two buffers, truncated to the shorter one.
Models the `Xor::xored` helper of `utils.rs` applied to equal-length slices. -/
def xorBytes (a b : Bytes) : Bytes := List.zipWith (fun x y => x ^^^ y) a b

/-- XOR the mask `m` into `buf` in place, starting at offset `i`.
Models `(&mut buf[i..i + m.len()]).xored(&m)`. -/
def xorRange (buf : Bytes) (i : Nat) (m : Bytes) : Bytes :=
  buf.take i ++ xorBytes ((buf.drop i).take m.length) m ++ buf.drop (i + m.length)

/-- Overwrite `buf[i..i + repl.len()]` with `repl`.
Models `buf[i..i + repl.len()].copy_from_slice(&repl)`. -/
def setRange (buf : Bytes) (i : Nat) (repl : Bytes) : Bytes :=
  buf.take i ++ repl ++ buf.drop (i + repl.length)

theorem xorBytes_length (a b : Bytes) : (xorBytes a b).length = min a.length b.length := by
  simp [xorBytes]

theorem xorBytes_cancel (a m : Bytes) (h : a.length = m.length) :
    xorBytes (xorBytes a m) m = a := by
  induction a generalizing m with
  | nil => simp [xorBytes]
  | cons x xs ih =>
    cases m with
    | nil => simp at h
    | cons y ys =>
      simp only [xorBytes, List.zipWith] at *
      rw [Nat.xor_assoc, Nat.xor_self, Nat.xor_zero, ih ys (by simpa using h)]

theorem take_at_append (a b : Bytes) (i : Nat) (ha : a.length = i) : (a ++ b).take i = a := by
  subst ha; simp

theorem drop_at_append (a b : Bytes) (i : Nat) (ha : a.length = i) : (a ++ b).drop i = b := by
  subst ha; simp

theorem drop_add_append (a b c : Bytes) (i j : Nat) (ha : a.length = i) (hb : b.length = j) :
    (a ++ (b ++ c)).drop (i + j) = c := by
  subst ha; subst hb
  rw [← List.append_assoc, ← List.length_append, drop_at_append _ _ _ rfl]

theorem mid_of_append (a b c : Bytes) (i j : Nat) (ha : a.length = i) (hb : b.length = j) :
    ((a ++ (b ++ c)).drop i).take j = b := by
  rw [drop_at_append a (b ++ c) i ha, take_at_append b c j hb]

/-- Effect of `xorRange` on a buffer decomposed around the targeted range. -/
theorem xorRange_concat (a b c m : Bytes) (i : Nat) (ha : a.length = i)
    (hb : b.length = m.length) :
    xorRange (a ++ (b ++ c)) i m = a ++ (xorBytes b m ++ c) := by
  subst ha
  unfold xorRange
  rw [List.take_append_of_le_length (Nat.le_refl _)]
  simp [List.drop_append, hb, List.take_append_of_le_length, xorBytes_length]

/-- Effect of `setRange` on a buffer decomposed around the targeted range. -/
theorem setRange_concat (a b c r : Bytes) (i : Nat) (ha : a.length = i)
    (hb : b.length = r.length) :
    setRange (a ++ (b ++ c)) i r = a ++ (r ++ c) := by
  subst ha
  unfold setRange
  rw [List.take_append_of_le_length (Nat.le_refl _)]
  simp [List.drop_append, hb]

/-! ## Spec-modelled external primitives

`utils.rs` (hmac), `common.rs` (derive_psk, constants) and `totp.rs` (Totp)
are not part of the provided sources; the Noise library (`snow`) is an
external collaborator.  They are modelled from the specification below. -/

/-- Modelled from the spec: the HMAC primitive (an external collaborator,
`utils::hmac(data, key)`), abstracted as an executable deterministic keyed
32-byte digest.  Only its determinism and output length matter to the
claims; the mixing is an arbitrary concrete stand-in. -/
def hmacModel (data key : Bytes) : Bytes :=
  (List.range 32).map (fun i =>
    List.foldl (fun a b => (a * 31 + b + 7) % 256) (i + 1) (key ++ data))

theorem hmacModel_length (data key : Bytes) : (hmacModel data key).length = 32 := by
  simp [hmacModel]

/-- The constant context string `NO_ELLIGATOR_WORKAROUND = "noelligator"`
from `common.rs` (spec section 6), as ASCII bytes. -/
def NO_ELLIGATOR_WORKAROUND : Bytes := [110, 111, 101, 108, 108, 105, 103, 97, 116, 111, 114]

/-- Modelled from the spec: `derive_psk` of `common.rs`, an HKDF-like map
from an arbitrary user key to a 32-byte PSK (spec section 3). -/
def derive_psk (key : Bytes) : Bytes := hmacModel [100, 101, 114, 105, 118, 101] key

/-- Modelled from the spec: big-endian 64-bit encoding of the TOTP step. -/
def be64 (n : Nat) : Bytes :=
  [n / 2 ^ 56 % 256, n / 2 ^ 48 % 256, n / 2 ^ 40 % 256, n / 2 ^ 32 % 256,
   n / 2 ^ 24 % 256, n / 2 ^ 16 % 256, n / 2 ^ 8 % 256, n % 256]

/-- Modelled from the spec: `Totp::sign_current::<N>(data)` of `totp.rs` --
an HMAC of `data ++ be64(step)` keyed by the TOTP key, truncated to `n`
bytes (spec section 4.1).  The wall-clock step is passed explicitly. -/
def totpSign (key : Bytes) (step : Nat) (data : Bytes) (n : Nat) : Bytes :=
  (hmacModel (data ++ be64 step) key).take n

/-- Modelled from the spec: `Totp::generate_current::<N>()`, the token for
the given step -- `sign_current` of empty data. -/
def totpGenerate (key : Bytes) (step : Nat) (n : Nat) : Bytes := totpSign key step [] n

/-- Modelled from the spec: the steps tried by `generate_current_skewed`
in order `now, now + 1, now - 1, ..., now + K, now - K` (spec section 4.1). -/
def totpSkewedSteps (step skew : Nat) : List Nat :=
  step :: (List.range skew).flatMap (fun i => [step + i + 1, step - (i + 1)])

/-- Modelled from the spec: `Totp::generate_current_skewed::<N>()`, the
2K+1 tokens for the skewed steps. -/
def totpGenerateSkewed (key : Bytes) (step skew n : Nat) : List Bytes :=
  (totpSkewedSteps step skew).map (fun s => totpGenerate key s n)

theorem totpSign_length (key : Bytes) (step : Nat) (data : Bytes) :
    (totpSign key step data 16).length = 16 := by
  simp [totpSign, hmacModel_length]

theorem totpGenerateSkewed_length (key : Bytes) (step skew : Nat) :
    ∀ t ∈ totpGenerateSkewed key step skew 16, t.length = 16 := by
  intro t ht
  simp only [totpGenerateSkewed, List.mem_map] at ht
  obtain ⟨s, _, rfl⟩ := ht
  exact totpSign_length key s []

/-! ### Noise model

The first message of `Noise_NNpsk0` (snow `write_message` by the initiator
with a 16-byte payload) is, per spec section 3,
`ephemeral(32) ++ ciphertext_of_payload(16) ++ AEAD_tag(16)`; the
responder `read_message` recovers the payload exactly when the tag
verifies.  The keystream and tag are concrete stand-ins; decryption
depends only on the ephemeral and the ciphertext, as in a real AEAD. -/

/-- Modelled from the spec: the AEAD keystream of the first Noise message,
determined by the PSK and the ephemeral. -/
def noiseKeystream (psk eph : Bytes) : Bytes := (hmacModel (0 :: eph) psk).take 16

/-- Modelled from the spec: the AEAD tag of the first Noise message over
the payload. -/
def noiseTag (psk eph pt : Bytes) : Bytes := (hmacModel (1 :: (eph ++ pt)) psk).take 16

/-- Modelled from the spec: snow `write_message` for the first NNpsk0
message: `ephemeral ++ ciphertext ++ tag`. -/
def noiseWrite (psk eph pt : Bytes) : Bytes :=
  eph ++ (xorBytes pt (noiseKeystream psk eph) ++ noiseTag psk eph pt)

/-- Modelled from the spec: snow `read_message` by the responder on a
64-byte first message carrying a 16-byte payload; fails unless the tag
verifies. -/
def noiseRead (psk msg : Bytes) : Option Bytes :=
  if msg.length = 64 then
    let eph := msg.take 32
    let ct := (msg.drop 32).take 16
    let tg := msg.drop 48
    let pt := xorBytes ct (noiseKeystream psk eph)
    if tg = noiseTag psk eph pt then some pt else none
  else none

theorem noiseKeystream_length (psk eph : Bytes) : (noiseKeystream psk eph).length = 16 := by
  simp [noiseKeystream, hmacModel_length]

theorem noiseTag_length (psk eph pt : Bytes) : (noiseTag psk eph pt).length = 16 := by
  simp [noiseTag, hmacModel_length]

theorem noiseWrite_length (psk eph pt : Bytes) (heph : eph.length = 32)
    (hpt : pt.length = 16) : (noiseWrite psk eph pt).length = 64 := by
  simp [noiseWrite, heph, hpt, xorBytes_length, noiseKeystream_length, noiseTag_length]

/-- The plaintext a successful `noiseRead` yields is determined by the
first 48 bytes of the message (ephemeral and ciphertext); the tag bytes
only decide success. -/
theorem noiseRead_parts (psk eph ct tg : Bytes) (heph : eph.length = 32)
    (hct : ct.length = 16) (htg : tg.length = 16) :
    noiseRead psk (eph ++ (ct ++ tg)) =
      if tg = noiseTag psk eph (xorBytes ct (noiseKeystream psk eph))
      then some (xorBytes ct (noiseKeystream psk eph)) else none := by
  have h64 : (eph ++ (ct ++ tg)).length = 64 := by simp [heph, hct, htg]
  unfold noiseRead
  rw [if_pos h64, take_at_append eph (ct ++ tg) 32 heph,
    mid_of_append eph ct tg 32 16 heph hct, drop_add_append eph ct tg 32 16 heph hct]

/-- AEAD correctness of the Noise model: reading back a written message
recovers the payload. -/
theorem noiseRead_noiseWrite (psk eph pt : Bytes) (heph : eph.length = 32)
    (hpt : pt.length = 16) : noiseRead psk (noiseWrite psk eph pt) = some pt := by
  have hks : (noiseKeystream psk eph).length = 16 := noiseKeystream_length psk eph
  have hct : (xorBytes pt (noiseKeystream psk eph)).length = 16 := by
    simp [xorBytes_length, hpt, hks]
  have hcancel : xorBytes (xorBytes pt (noiseKeystream psk eph)) (noiseKeystream psk eph)
      = pt := xorBytes_cancel pt (noiseKeystream psk eph) (by rw [hpt, hks])
  rw [noiseWrite, noiseRead_parts psk eph _ _ heph hct (noiseTag_length psk eph pt), hcancel,
    if_pos rfl]

/-! ## Constructors (tunnel client and server) -/

/-- The key-derived fields of `Client` / `Server`.  The TLS configuration,
server name, camouflage address and the replay-filter cell are I/O
configuration and are modelled separately. -/
structure KeyedCfg where
  key : Bytes
  totpKey : Bytes
  totpPeriod : Nat
  totpSkew : Nat
  curvePointMask : Bytes
deriving DecidableEq

/-- `Client::new_with_fingerprint` key material, `src/tunnel/src/client.rs`
lines 84-91 (`Client::new` delegates to it with a default fingerprint):
`key = derive_psk(key)`, `totp = Totp::new(key, 60, 2)`,
`_curve_point_mask = hmac(NO_ELLIGATOR_WORKAROUND, key)`, where `key` is
the raw user key argument. -/
def clientNew (userKey : Bytes) : KeyedCfg :=
  { key := derive_psk userKey
    totpKey := userKey
    totpPeriod := 60
    totpSkew := 2
    curvePointMask := hmacModel NO_ELLIGATOR_WORKAROUND userKey }

/-- `Server::new` key material, `src/tunnel/src/server.rs` lines 44-53. -/
def serverNew (userKey : Bytes) : KeyedCfg :=
  { key := derive_psk userKey
    totpKey := userKey
    totpPeriod := 60
    totpSkew := 2
    curvePointMask := hmacModel NO_ELLIGATOR_WORKAROUND userKey }

/-! ## Client ping construction -/

/-- The ClientHello fields that carry the Noise ping. -/
structure HelloFields where
  random : Bytes
  sessionId : Bytes
deriving DecidableEq

/-- `connect_with_early_data` ping construction,
`src/tunnel/src/client.rs` lines 110-129: Noise write of the early data,
bytes 0..32 XORed with the point mask, bytes 48..64 XORed with the current
TOTP token; bytes 0..32 become `random`, bytes 32..64 become
`session_id`. -/
def clientBuildPing (psk eph mask ed token : Bytes) : HelloFields :=
  let ping0 := noiseWrite psk eph ed
  let ping1 := xorRange ping0 0 mask
  let ping2 := xorRange ping1 48 token
  { random := ping2.take 32, sessionId := (ping2.drop 32).take 32 }

/-! ## Server authentication -/

/-- The token loop of `accept_with_early_data`,
`src/tunnel/src/server.rs` lines 124-131: XOR the candidate token into
bytes 48..64 of the ping, attempt the Noise read, and revert the XOR
before trying the next token.  Returns the ping as mutated by the
successful attempt together with the recovered early data. -/
def tryTokens (rd : Bytes → Option Bytes) : List Bytes → Bytes → Option (Bytes × Bytes)
  | [], _ => none
  | t :: ts, ping =>
    let p := xorRange ping 48 t
    match rd p with
    | some ed => some (p, ed)
    | none => tryTokens rd ts (xorRange p 48 t)

/-- Ping reconstruction and authentication in `accept_with_early_data`,
`src/tunnel/src/server.rs` lines 107-131: `ping = random ++ session_id`,
bytes 0..32 XORed with the point mask, then the skewed-token loop. -/
def serverAuth (psk mask : Bytes) (tokens : List Bytes) (chp : HelloFields) :
    Option (Bytes × Bytes) :=
  let ping := chp.random ++ chp.sessionId
  let ping := xorRange ping 0 mask
  tryTokens (noiseRead psk) tokens ping

/-! ## Replay filter (lru::LruCache) -/

/-- Peer socket addresses, abstracted. -/
abbrev Addr := Nat

/-- The LRU replay filter: entries most-recent first. -/
abbrev ReplayFilter := List (Bytes × Addr)

/-- `LruCache::get`: on a hit the entry is promoted to most-recent and its
value returned; a miss leaves the cache unchanged. -/
def lruGet (cache : ReplayFilter) (k : Bytes) : Option Addr × ReplayFilter :=
  match cache.find? (fun p => p.1 == k) with
  | none => (none, cache)
  | some p => (some p.2, p :: cache.filter (fun q => ! (q.1 == k)))

/-- `LruCache::put`: insert at most-recent, evicting from the
least-recent end down to the capacity. -/
def lruPut (cap : Nat) (cache : ReplayFilter) (k : Bytes) (v : Addr) : ReplayFilter :=
  (k, v) :: (cache.filter (fun q => ! (q.1 == k))).take (cap - 1)

/-! ## accept_with_early_data, up to the camouflage connect -/

/-- The error variants of `AcceptError` reachable before the camouflage
connection is opened (`src/tunnel/src/server.rs` lines 296-317);
`buf` is the pending read buffer and `io` the inbound stream. -/
inductive AcceptErr
  | clientHelloInvalid (buf : Bytes) (io : Addr)
  | unauthenticated (buf : Bytes) (io : Addr)
  | replayDetected (buf : Bytes) (io : Addr) (nonce : Bytes) (firstFrom : Addr)
deriving DecidableEq

/-- The pending buffer carried by an `AcceptErr`. -/
def AcceptErr.buf : AcceptErr → Bytes
  | .clientHelloInvalid b _ => b
  | .unauthenticated b _ => b
  | .replayDetected b _ _ _ => b

/-- The inbound stream carried by an `AcceptErr`. -/
def AcceptErr.io : AcceptErr → Addr
  | .clientHelloInvalid _ i => i
  | .unauthenticated _ i => i
  | .replayDetected _ i _ _ => i

/-- Observable output effects of the accept path. -/
inductive Effect
  | connectCamouflage
  | writeOutbound (data : Bytes)
deriving DecidableEq

/-- Outcome of the pre-proxy phase of `accept_with_early_data`. -/
structure Accept1Out where
  result : Except AcceptErr (Bytes × HelloFields)
  filter : ReplayFilter
  effects : List Effect

/-- `accept_with_early_data` up to (and including) the camouflage connect
and the ClientHello forward, `src/tunnel/src/server.rs` lines 75-154.
`record` is the raw ClientHello record read into `buf`; `parsed` is the
result of the rustls parse-and-filter chain (none when the first record is
not a well-formed ClientHello); `peer` is the inbound peer address and
`io` the inbound stream.  On success the result carries the early data
and the parsed hello. -/
def acceptPhase1 (cfg : KeyedCfg) (serverStep cap : Nat) (filter : ReplayFilter)
    (peer io : Addr) (record : Bytes) (parsed : Option HelloFields) : Accept1Out :=
  match parsed with
  | none => ⟨.error (.clientHelloInvalid record io), filter, []⟩
  | some chp =>
    match serverAuth cfg.key cfg.curvePointMask
        (totpGenerateSkewed cfg.totpKey serverStep cfg.totpSkew 16) chp with
    | none => ⟨.error (.unauthenticated record io), filter, []⟩
    | some (ping, earlyData) =>
      let e := ping.take 32
      match lruGet filter e with
      | (some first, filterHit) =>
        ⟨.error (.replayDetected record io e first), filterHit, []⟩
      | (none, filterMiss) =>
        ⟨.ok (earlyData, chp), lruPut cap filterMiss e peer,
          [.connectCamouflage, .writeOutbound record]⟩

/-! ## Round-trip lemmas -/

theorem xorRange_front (a rest m : Bytes) (ha : a.length = m.length) :
    xorRange (a ++ rest) 0 m = xorBytes a m ++ rest := by
  have h := xorRange_concat [] a rest m 0 rfl ha
  simpa using h

theorem xorRange48 (u v m : Bytes) (hu : u.length = 48) (hv : v.length = m.length) :
    xorRange (u ++ v) 48 m = u ++ xorBytes v m := by
  have h := xorRange_concat u v [] m 48 hu hv
  simpa using h

theorem setRange_front (a rest r : Bytes) (ha : a.length = r.length) :
    setRange (a ++ rest) 0 r = r ++ rest := by
  have h := setRange_concat [] a rest r 0 rfl ha
  simpa using h

/-- The ClientHello fields produced by `clientBuildPing`, decomposed:
`random` is the masked ephemeral, `session_id` is the Noise ciphertext
followed by the token-XORed tag. -/
theorem clientBuildPing_eq (psk eph mask ed token : Bytes) (heph : eph.length = 32)
    (hed : ed.length = 16) (hmask : mask.length = 32) (htok : token.length = 16) :
    clientBuildPing psk eph mask ed token =
      { random := xorBytes eph mask
        sessionId := xorBytes ed (noiseKeystream psk eph)
          ++ xorBytes (noiseTag psk eph ed) token } := by
  have hks : (noiseKeystream psk eph).length = 16 := noiseKeystream_length psk eph
  have hct : (xorBytes ed (noiseKeystream psk eph)).length = 16 := by
    simp [xorBytes_length, hed, hks]
  have htg : (noiseTag psk eph ed).length = 16 := noiseTag_length psk eph ed
  have hem : (xorBytes eph mask).length = 32 := by simp [xorBytes_length, heph, hmask]
  simp only [clientBuildPing, noiseWrite]
  rw [xorRange_front eph _ mask (by rw [heph, hmask])]
  have hassoc : xorBytes eph mask ++ (xorBytes ed (noiseKeystream psk eph) ++ noiseTag psk eph ed)
      = (xorBytes eph mask ++ xorBytes ed (noiseKeystream psk eph)) ++ noiseTag psk eph ed := by
    rw [List.append_assoc]
  rw [hassoc, xorRange48 _ _ token (by simp [hem, hct]) (by rw [htg, htok]),
    List.append_assoc]
  have h1 : (xorBytes eph mask
      ++ (xorBytes ed (noiseKeystream psk eph) ++ xorBytes (noiseTag psk eph ed) token)).take 32
      = xorBytes eph mask := take_at_append _ _ 32 hem
  have h2 : (xorBytes eph mask
      ++ (xorBytes ed (noiseKeystream psk eph) ++ xorBytes (noiseTag psk eph ed) token)).drop 32
      = xorBytes ed (noiseKeystream psk eph) ++ xorBytes (noiseTag psk eph ed) token :=
    drop_at_append _ _ 32 hem
  have h3 : (xorBytes ed (noiseKeystream psk eph) ++ xorBytes (noiseTag psk eph ed) token).take 32
      = xorBytes ed (noiseKeystream psk eph) ++ xorBytes (noiseTag psk eph ed) token := by
    have hl : (xorBytes ed (noiseKeystream psk eph)
        ++ xorBytes (noiseTag psk eph ed) token).length = 32 := by
      simp [xorBytes_length, hct, htg, htok]
    rw [← hl, List.take_length]
  rw [h1, h2, h3]

/-- Unfolding step for the token loop. -/
theorem tryTokens_cons (rd : Bytes → Option Bytes) (t : Bytes) (ts : List Bytes) (ping : Bytes) :
    tryTokens rd (t :: ts) ping =
      match rd (xorRange ping 48 t) with
      | some ed => some (xorRange ping 48 t, ed)
      | none => tryTokens rd ts (xorRange (xorRange ping 48 t) 48 t) := rfl

/-- The token loop succeeds with the embedded early data whenever the
matching token is among the candidates: each failed XOR is reverted, any
successful read yields the stable plaintext, and the matching token
restores the original Noise message. -/
theorem tryTokens_mem (psk u tg token : Bytes) (tokens : List Bytes) (ed : Bytes)
    (hu : u.length = 48) (htg : tg.length = 16) (htok : token.length = 16)
    (htoks : ∀ t ∈ tokens, t.length = 16) (hmem : token ∈ tokens)
    (hsucc : noiseRead psk (u ++ tg) = some ed)
    (hstable : ∀ w, w.length = 16 → ∀ x, noiseRead psk (u ++ w) = some x → x = ed) :
    ∃ tail, tail.length = 16 ∧
      tryTokens (noiseRead psk) tokens (u ++ xorBytes tg token) = some (u ++ tail, ed) := by
  induction tokens with
  | nil => simp at hmem
  | cons t ts ih =>
    have htlen : t.length = 16 := htoks t (List.mem_cons_self t ts)
    have hw : (xorBytes tg token).length = 16 := by simp [xorBytes_length, htg, htok]
    have hwt : (xorBytes (xorBytes tg token) t).length = 16 := by
      simp [xorBytes_length, hw, htlen]
    have hx1 : xorRange (u ++ xorBytes tg token) 48 t = u ++ xorBytes (xorBytes tg token) t :=
      xorRange48 u _ t hu (by rw [hw, htlen])
    rw [tryTokens_cons, hx1]
    cases hrd : noiseRead psk (u ++ xorBytes (xorBytes tg token) t) with
    | some x =>
      refine ⟨xorBytes (xorBytes tg token) t, hwt, ?_⟩
      rw [hstable _ hwt x hrd]
    | none =>
      have hrev : xorRange (u ++ xorBytes (xorBytes tg token) t) 48 t
          = u ++ xorBytes tg token := by
        rw [xorRange48 u _ t hu (by rw [hwt, htlen]),
          xorBytes_cancel _ t (by rw [hw, htlen])]
      rw [hrev]
      rcases List.mem_cons.mp hmem with heq | hmemts
      · exfalso
        subst heq
        rw [xorBytes_cancel tg token (by rw [htg, htok]), hsucc] at hrd
        exact Option.noConfusion hrd
      · exact ih (fun s hs => htoks s (List.mem_cons_of_mem t hs)) hmemts

/-- End-to-end authentication: the server reconstruction succeeds on the
client-built hello fields whenever the client clock step is inside the
server skew window, and the recovered early data and unmasked ephemeral
are the ones the client used. -/
theorem serverAuth_roundtrip (userKey eph ed : Bytes) (clientStep serverStep : Nat)
    (heph : eph.length = 32) (hed : ed.length = 16)
    (hwin : clientStep ∈ totpSkewedSteps serverStep 2) :
    ∃ ping2, ping2.take 32 = eph ∧
      serverAuth (serverNew userKey).key (serverNew userKey).curvePointMask
        (totpGenerateSkewed (serverNew userKey).totpKey serverStep (serverNew userKey).totpSkew 16)
        (clientBuildPing (clientNew userKey).key eph (clientNew userKey).curvePointMask ed
          (totpGenerate (clientNew userKey).totpKey clientStep 16)) = some (ping2, ed) := by
  simp only [serverNew, clientNew]
  set psk := derive_psk userKey with hpsk
  set mask := hmacModel NO_ELLIGATOR_WORKAROUND userKey with hmaskdef
  set token := totpGenerate userKey clientStep 16 with htokendef
  have hmask : mask.length = 32 := hmacModel_length _ _
  have htok : token.length = 16 := totpSign_length userKey clientStep []
  have hks : (noiseKeystream psk eph).length = 16 := noiseKeystream_length psk eph
  set ct := xorBytes ed (noiseKeystream psk eph) with hctdef
  set tg := noiseTag psk eph ed with htgdef
  have hct : ct.length = 16 := by simp [hctdef, xorBytes_length, hed, hks]
  have htg : tg.length = 16 := noiseTag_length psk eph ed
  have hem : (xorBytes eph mask).length = 32 := by simp [xorBytes_length, heph, hmask]
  have hch : clientBuildPing psk eph mask ed token
      = { random := xorBytes eph mask, sessionId := ct ++ xorBytes tg token } :=
    clientBuildPing_eq psk eph mask ed token heph hed hmask htok
  rw [hch]
  unfold serverAuth
  have hunmask : xorRange (xorBytes eph mask ++ (ct ++ xorBytes tg token)) 0 mask
      = eph ++ (ct ++ xorBytes tg token) := by
    rw [xorRange_front _ _ mask (by rw [hem, hmask]),
      xorBytes_cancel eph mask (by rw [heph, hmask])]
  simp only [hunmask]
  have hu : (eph ++ ct).length = 48 := by simp [heph, hct]
  have hsucc : noiseRead psk ((eph ++ ct) ++ tg) = some ed := by
    rw [List.append_assoc]
    have := noiseRead_noiseWrite psk eph ed heph hed
    rw [noiseWrite] at this
    exact this
  have hstable : ∀ w, w.length = 16 → ∀ x, noiseRead psk ((eph ++ ct) ++ w) = some x → x = ed := by
    intro w hwlen x hx
    rw [List.append_assoc, noiseRead_parts psk eph ct w heph hct hwlen] at hx
    by_cases hcond : w = noiseTag psk eph (xorBytes ct (noiseKeystream psk eph))
    · rw [if_pos hcond] at hx
      have : xorBytes ct (noiseKeystream psk eph) = ed := by
        rw [hctdef]
        exact xorBytes_cancel ed (noiseKeystream psk eph) (by rw [hed, hks])
      rw [this] at hx
      exact (Option.some_inj.mp hx).symm
    · rw [if_neg hcond] at hx
      exact Option.noConfusion hx
  have hmemtok : token ∈ totpGenerateSkewed userKey serverStep 2 16 := by
    rw [htokendef]
    exact List.mem_map_of_mem (fun s => totpGenerate userKey s 16) hwin
  have htoks := totpGenerateSkewed_length userKey serverStep 2
  obtain ⟨tail, htail, hrun⟩ :=
    tryTokens_mem psk (eph ++ ct) tg token (totpGenerateSkewed userKey serverStep 2 16) ed
      hu htg htok htoks hmemtok hsucc hstable
  refine ⟨(eph ++ ct) ++ tail, ?_, ?_⟩
  · rw [List.append_assoc]
    exact take_at_append eph (ct ++ tail) 32 heph
  · rw [← List.append_assoc]
    exact hrun

theorem xorRange_decompose (q m : Bytes) (i : Nat) (_h : i + m.length ≤ q.length) :
    q = q.take i ++ ((q.drop i).take m.length ++ q.drop (i + m.length)) := by
  conv_lhs => rw [← List.take_append_drop i q]
  congr 1
  conv_lhs => rw [← List.take_append_drop m.length (q.drop i)]
  congr 1
  rw [List.drop_drop, Nat.add_comm]

theorem length_take_of_le (q : Bytes) (i : Nat) (h : i ≤ q.length) :
    (q.take i).length = i := by
  simp [Nat.min_eq_left h]

theorem xorRange_length (q m : Bytes) (i : Nat) (h : i + m.length ≤ q.length) :
    (xorRange q i m).length = q.length := by
  have hi : i ≤ q.length := le_trans (Nat.le_add_right _ _) h
  have ha : (q.take i).length = i := length_take_of_le q i hi
  have hb : ((q.drop i).take m.length).length = m.length := by
    rw [List.length_take, List.length_drop]
    omega
  conv_lhs => rw [xorRange_decompose q m i h, xorRange_concat _ _ _ m i ha hb]
  conv_rhs => rw [xorRange_decompose q m i h]
  simp only [List.length_append, xorBytes_length, hb, ha, List.length_take, List.length_drop]
  omega

theorem xorRange_xorRange_cancel (q m : Bytes) (i : Nat) (h : i + m.length ≤ q.length) :
    xorRange (xorRange q i m) i m = q := by
  have hi : i ≤ q.length := le_trans (Nat.le_add_right _ _) h
  have ha : (q.take i).length = i := length_take_of_le q i hi
  have hb : ((q.drop i).take m.length).length = m.length := by
    rw [List.length_take, List.length_drop]
    omega
  conv_lhs => rw [xorRange_decompose q m i h]
  rw [xorRange_concat _ _ _ m i ha hb,
    xorRange_concat _ _ _ m i ha (by rw [xorBytes_length, hb]; simp),
    xorBytes_cancel _ _ (by rw [hb])]
  conv_rhs => rw [xorRange_decompose q m i h]

/-- The token loop fails exactly when every candidate token fails, each
failed XOR being reverted before the next attempt. -/
theorem tryTokens_eq_none_iff (rd : Bytes → Option Bytes) (tokens : List Bytes) (ping : Bytes)
    (hping : ping.length = 64) (htoks : ∀ t ∈ tokens, t.length = 16) :
    tryTokens rd tokens ping = none ↔ ∀ t ∈ tokens, rd (xorRange ping 48 t) = none := by
  induction tokens with
  | nil => simp [tryTokens]
  | cons t ts ih =>
    have ht : t.length = 16 := htoks t (List.mem_cons_self t ts)
    have hrev : xorRange (xorRange ping 48 t) 48 t = ping :=
      xorRange_xorRange_cancel ping t 48 (by rw [ht, hping])
    rw [tryTokens_cons]
    cases h : rd (xorRange ping 48 t) with
    | some ed =>
      constructor
      · intro hcontra
        exact Option.noConfusion hcontra
      · intro hall
        rw [hall t (List.mem_cons_self t ts)] at h
        exact Option.noConfusion h
    | none =>
      rw [hrev, ih (fun s hs => htoks s (List.mem_cons_of_mem t hs))]
      constructor
      · intro hall s hs
        rcases List.mem_cons.mp hs with rfl | hmem
        · exact h
        · exact hall s hmem
      · intro hall s hs
        exact hall s (List.mem_cons_of_mem t hs)

/-! ## Claim C1 -/

/-- C1: for every pre-shared key and 16-byte early data, if the server
receives exactly the ClientHello ping built by the client (Noise write of
the early data, bytes 0..32 XORed with the point mask, bytes 48..64 XORed
with the current TOTP token, placed into random and session_id) at a clock
step inside the TOTP skew window, the reconstruction of
`accept_with_early_data` (copy random and session_id into a 64-byte ping,
XOR bytes 0..32 with the point mask, XOR bytes 48..64 with a matching TOTP
token, Noise read) succeeds and recovers exactly the embedded early data. -/
theorem ping_roundtrip (userKey eph ed : Bytes) (clientStep serverStep : Nat)
    (heph : eph.length = 32) (hed : ed.length = 16)
    (hwin : clientStep ∈ totpSkewedSteps serverStep 2) :
    ∃ ping2, serverAuth (serverNew userKey).key (serverNew userKey).curvePointMask
        (totpGenerateSkewed (serverNew userKey).totpKey serverStep (serverNew userKey).totpSkew 16)
        (clientBuildPing (clientNew userKey).key eph (clientNew userKey).curvePointMask ed
          (totpGenerate (clientNew userKey).totpKey clientStep 16)) = some (ping2, ed) := by
  obtain ⟨p, _, h⟩ := serverAuth_roundtrip userKey eph ed clientStep serverStep heph hed hwin
  exact ⟨p, h⟩

/-- Witness for C1 at a concrete key, ephemeral, early data and clock. -/
theorem ping_roundtrip_witness :
    ∃ ping2, serverAuth (serverNew [7]).key (serverNew [7]).curvePointMask
        (totpGenerateSkewed (serverNew [7]).totpKey 5 (serverNew [7]).totpSkew 16)
        (clientBuildPing (clientNew [7]).key (List.replicate 32 3) (clientNew [7]).curvePointMask
          (List.replicate 16 9) (totpGenerate (clientNew [7]).totpKey 5 16)) =
      some (ping2, List.replicate 16 9) :=
  ping_roundtrip [7] (List.replicate 32 3) (List.replicate 16 9) 5 5
    (by simp) (by simp) (by decide)

/-! ## Claim C2 -/

/-- The pre-proxy phase yields the `Unauthenticated` error exactly when
the token loop fails. -/
theorem acceptPhase1_unauth_iff (cfg : KeyedCfg) (serverStep cap : Nat) (filter : ReplayFilter)
    (peer io : Addr) (record : Bytes) (chp : HelloFields) :
    (acceptPhase1 cfg serverStep cap filter peer io record (some chp)).result
        = .error (.unauthenticated record io)
      ↔ serverAuth cfg.key cfg.curvePointMask
          (totpGenerateSkewed cfg.totpKey serverStep cfg.totpSkew 16) chp = none := by
  cases hsa : serverAuth cfg.key cfg.curvePointMask
      (totpGenerateSkewed cfg.totpKey serverStep cfg.totpSkew 16) chp with
  | none => simp [acceptPhase1, hsa]
  | some pair =>
    obtain ⟨ping, ed⟩ := pair
    cases hg : lruGet filter (ping.take 32) with
    | mk fst snd =>
      cases fst with
      | none => simp [acceptPhase1, hsa, hg]
      | some first => simp [acceptPhase1, hsa, hg]

/-- C2: for a well-formed ClientHello, `accept_with_early_data` returns
the `Unauthenticated {buf, io}` error -- with `buf` the full ClientHello
record as read from the wire and `io` the inbound stream -- if and only if
no TOTP token in the skew window makes the Noise read succeed on the
reconstructed ping, each failed token XOR being reverted before the next
try. -/
theorem unauthenticated_iff_no_token (userKey : Bytes) (serverStep cap : Nat)
    (filter : ReplayFilter) (peer io : Addr) (record : Bytes) (chp : HelloFields)
    (hr : chp.random.length = 32) (hs : chp.sessionId.length = 32) :
    (acceptPhase1 (serverNew userKey) serverStep cap filter peer io record (some chp)).result
        = .error (.unauthenticated record io)
      ↔ ∀ t ∈ totpGenerateSkewed userKey serverStep 2 16,
          noiseRead (derive_psk userKey)
            (xorRange (xorRange (chp.random ++ chp.sessionId) 0
              (hmacModel NO_ELLIGATOR_WORKAROUND userKey)) 48 t) = none := by
  have hlen : (xorRange (chp.random ++ chp.sessionId) 0
      (hmacModel NO_ELLIGATOR_WORKAROUND userKey)).length = 64 := by
    rw [xorRange_length _ _ 0 (by simp [hmacModel_length, hr, hs])]
    simp [hr, hs]
  have hiff := tryTokens_eq_none_iff (noiseRead (derive_psk userKey))
    (totpGenerateSkewed userKey serverStep 2 16)
    (xorRange (chp.random ++ chp.sessionId) 0 (hmacModel NO_ELLIGATOR_WORKAROUND userKey))
    hlen (totpGenerateSkewed_length userKey serverStep 2)
  rw [acceptPhase1_unauth_iff (serverNew userKey) serverStep cap filter peer io record chp]
  show tryTokens (noiseRead (derive_psk userKey))
      (totpGenerateSkewed userKey serverStep 2 16)
      (xorRange (chp.random ++ chp.sessionId) 0 (hmacModel NO_ELLIGATOR_WORKAROUND userKey))
      = none ↔ _
  exact hiff

/-- Witness for C2 at a concrete key and hello. -/
theorem unauthenticated_iff_no_token_witness :
    (acceptPhase1 (serverNew [7]) 5 1 [] 10 20 [1, 2, 3]
        (some ⟨List.replicate 32 0, List.replicate 32 0⟩)).result
        = .error (.unauthenticated [1, 2, 3] 20)
      ↔ ∀ t ∈ totpGenerateSkewed [7] 5 2 16,
          noiseRead (derive_psk [7])
            (xorRange (xorRange ((List.replicate 32 0 : Bytes) ++ List.replicate 32 0) 0
              (hmacModel NO_ELLIGATOR_WORKAROUND [7])) 48 t) = none :=
  unauthenticated_iff_no_token [7] 5 1 [] 10 20 [1, 2, 3]
    ⟨List.replicate 32 0, List.replicate 32 0⟩ (by simp) (by simp)

/-! ## Claim C3 -/

/-- The hello fields sent by `connect_with_early_data`
(`src/tunnel/src/client.rs` lines 105-129) with the key material of
`Client::new`. -/
def clientHello (userKey eph ed : Bytes) (clientStep : Nat) : HelloFields :=
  clientBuildPing (clientNew userKey).key eph (clientNew userKey).curvePointMask ed
    (totpGenerate (clientNew userKey).totpKey clientStep 16)

/-- C3: for an authenticated ClientHello the replay filter is keyed by the
unmasked 32-byte Noise ephemeral: a fresh ephemeral is inserted with the
current peer address and the handshake proceeds, while submitting the same
captured ClientHello a second time within retention yields
`ReplayDetected` with `nonce` the ephemeral and `first_from` the peer
address stored at first use. -/
theorem replay_detection (userKey eph ed record : Bytes) (clientStep serverStep cap : Nat)
    (filter0 : ReplayFilter) (p1 p2 io1 io2 : Addr)
    (heph : eph.length = 32) (hed : ed.length = 16)
    (hwin : clientStep ∈ totpSkewedSteps serverStep 2)
    (hfresh : ∀ q ∈ filter0, q.1 ≠ eph) :
    (acceptPhase1 (serverNew userKey) serverStep cap filter0 p1 io1 record
        (some (clientHello userKey eph ed clientStep))).result
        = .ok (ed, clientHello userKey eph ed clientStep)
    ∧ (acceptPhase1 (serverNew userKey) serverStep cap filter0 p1 io1 record
        (some (clientHello userKey eph ed clientStep))).filter.head? = some (eph, p1)
    ∧ (acceptPhase1 (serverNew userKey) serverStep cap
        (acceptPhase1 (serverNew userKey) serverStep cap filter0 p1 io1 record
          (some (clientHello userKey eph ed clientStep))).filter p2 io2 record
        (some (clientHello userKey eph ed clientStep))).result
        = .error (.replayDetected record io2 eph p1) := by
  obtain ⟨ping2, htake, hrun⟩ :=
    serverAuth_roundtrip userKey eph ed clientStep serverStep heph hed hwin
  have hfind0 : filter0.find? (fun q => q.1 == eph) = none := by
    apply List.find?_eq_none.mpr
    intro x hx
    simpa using hfresh x hx
  have hget0 : lruGet filter0 eph = (none, filter0) := by
    unfold lruGet
    rw [hfind0]
  have hout1 : acceptPhase1 (serverNew userKey) serverStep cap filter0 p1 io1 record
      (some (clientHello userKey eph ed clientStep))
      = ⟨.ok (ed, clientHello userKey eph ed clientStep), lruPut cap filter0 eph p1,
         [.connectCamouflage, .writeOutbound record]⟩ := by
    simp only [clientHello, acceptPhase1, hrun, htake, hget0]
  have hfind1 : (lruPut cap filter0 eph p1).find? (fun q => q.1 == eph) = some (eph, p1) := by
    unfold lruPut
    simp [List.find?]
  have hget1 : lruGet (lruPut cap filter0 eph p1) eph
      = (some p1, (eph, p1) :: (lruPut cap filter0 eph p1).filter (fun q => ! (q.1 == eph))) := by
    unfold lruGet
    rw [hfind1]
  refine ⟨?_, ?_, ?_⟩
  · rw [hout1]
  · rw [hout1]
    rfl
  · rw [hout1]
    simp only [clientHello, acceptPhase1, hrun, htake, hget1]

/-- Witness for C3 at a concrete key, ephemeral, early data, clock, empty
replay filter and two peers. -/
theorem replay_detection_witness :
    (acceptPhase1 (serverNew [7]) 5 1 [] 10 20 [1, 2, 3]
        (some (clientHello [7] (List.replicate 32 3) (List.replicate 16 9) 5))).result
        = .ok (List.replicate 16 9, clientHello [7] (List.replicate 32 3) (List.replicate 16 9) 5)
    ∧ (acceptPhase1 (serverNew [7]) 5 1 [] 10 20 [1, 2, 3]
        (some (clientHello [7] (List.replicate 32 3) (List.replicate 16 9) 5))).filter.head?
        = some (List.replicate 32 3, 10)
    ∧ (acceptPhase1 (serverNew [7]) 5 1
        (acceptPhase1 (serverNew [7]) 5 1 [] 10 20 [1, 2, 3]
          (some (clientHello [7] (List.replicate 32 3) (List.replicate 16 9) 5))).filter 11 21
        [1, 2, 3]
        (some (clientHello [7] (List.replicate 32 3) (List.replicate 16 9) 5))).result
        = .error (.replayDetected [1, 2, 3] 21 (List.replicate 32 3) 10) :=
  replay_detection [7] (List.replicate 32 3) (List.replicate 16 9) [1, 2, 3] 5 5 1 [] 10 11 20 21
    (by simp) (by simp) (by decide) (by simp)

/-! ## Claim C9 -/

/-- C9: error atomicity of the server handshake -- whenever the pre-proxy
phase of `accept_with_early_data` returns `ClientHelloInvalid`,
`Unauthenticated` or `ReplayDetected`, no connection to the camouflage
address has been opened and nothing has been written (the effect trace is
empty), and the error carries the inbound stream together with a buffer
holding exactly the bytes read from it. -/
theorem accept_error_atomicity (userKey : Bytes) (serverStep cap : Nat)
    (filter : ReplayFilter) (peer io : Addr) (record : Bytes)
    (parsed : Option HelloFields) (e : AcceptErr)
    (herr : (acceptPhase1 (serverNew userKey) serverStep cap filter peer io record parsed).result
      = .error e) :
    (acceptPhase1 (serverNew userKey) serverStep cap filter peer io record parsed).effects = []
    ∧ e.buf = record ∧ e.io = io := by
  cases parsed with
  | none =>
    simp only [acceptPhase1, Except.error.injEq] at herr
    subst herr
    exact ⟨rfl, rfl, rfl⟩
  | some chp =>
    cases hsa : serverAuth (serverNew userKey).key (serverNew userKey).curvePointMask
        (totpGenerateSkewed (serverNew userKey).totpKey serverStep
          (serverNew userKey).totpSkew 16) chp with
    | none =>
      simp only [acceptPhase1, hsa, Except.error.injEq] at herr
      subst herr
      simp [acceptPhase1, hsa, AcceptErr.buf, AcceptErr.io]
    | some pair =>
      obtain ⟨ping, ed⟩ := pair
      cases hg : lruGet filter (ping.take 32) with
      | mk fst snd =>
        cases fst with
        | none =>
          simp only [acceptPhase1, hsa, hg] at herr
          exact Except.noConfusion herr
        | some first =>
          simp only [acceptPhase1, hsa, hg, Except.error.injEq] at herr
          subst herr
          simp [acceptPhase1, hsa, hg, AcceptErr.buf, AcceptErr.io]

/-- Witness for C9 with a malformed first record at a concrete key. -/
theorem accept_error_atomicity_witness :
    (acceptPhase1 (serverNew [7]) 5 1 [] 10 20 [1, 2, 3] none).effects = []
    ∧ (AcceptErr.clientHelloInvalid [1, 2, 3] 20).buf = [1, 2, 3]
    ∧ (AcceptErr.clientHelloInvalid [1, 2, 3] 20).io = 20 :=
  accept_error_atomicity [7] 5 1 [] 10 20 [1, 2, 3] none
    (.clientHelloInvalid [1, 2, 3] 20) rfl

/-! ## Claim C4 -/

/-- `TLS_RECORD_HEADER_LENGTH = 5` from `common.rs` (spec section 6). -/
def TLS_RECORD_HEADER_LENGTH : Nat := 5

/-- `SERVER_HELLO_RANDOM_START_INDEX = TLS_RECORD_HEADER_LENGTH + 6`,
`src/tunnel/src/server.rs` line 25. -/
def SERVER_HELLO_RANDOM_START_INDEX : Nat := TLS_RECORD_HEADER_LENGTH + 6

/-- TLS 1.2 resumed branch on the server,
`src/tunnel/src/server.rs` lines 215-238: the ServerHello record has its
32-byte random at `SERVER_HELLO_RANDOM_START_INDEX` overwritten with
`pong[0..32]` and is forwarded; the ChangeCipherSpec record is forwarded
unmodified; the Finished record has its first 16 body bytes overwritten
with `pong[32..48]` and is forwarded.  The result lists the records
written to the inbound stream, in order. -/
def serverTls12Resumed (pong shRecord ccsRecord finRecord : Bytes) : List Bytes :=
  [ setRange shRecord SERVER_HELLO_RANDOM_START_INDEX (pong.take 32),
    ccsRecord,
    setRange finRecord TLS_RECORD_HEADER_LENGTH ((pong.drop 32).take 16) ]

/-- TLS 1.2 resumed branch on the client,
`src/tunnel/src/client.rs` lines 210-234: `pong[0..32]` is the received
ServerHello random XORed with the point mask, `pong[32..48]` is the first
16 body bytes of the received Finished record. -/
def clientTls12ResumedPong (mask shRandom finRecord : Bytes) : Bytes :=
  let pong := List.replicate 48 0
  let pong := setRange pong 0 shRandom
  let pong := xorRange pong 0 mask
  setRange pong 32 ((finRecord.drop TLS_RECORD_HEADER_LENGTH).take 16)

/-- C4: in the TLS 1.2 resumed branch the server forwards exactly three
records -- the ServerHello with its 32-byte random at record offset
`TLS_RECORD_HEADER_LENGTH + 6` overwritten by `pong[0..32]`, the
ChangeCipherSpec unmodified, and the Finished with its first 16 body
bytes overwritten by `pong[32..48]` -- and the client reconstructs the
pong as the masked ServerHello random XOR the point mask, concatenated
with the first 16 body bytes of the Finished record. -/
theorem tls12_resumed_forwarding (pong sh ccs fin mask : Bytes)
    (hpong : pong.length = 48) (hmask : mask.length = 32)
    (hsh : 43 ≤ sh.length) (hfin : 21 ≤ fin.length) :
    serverTls12Resumed pong sh ccs fin
      = [ sh.take 11 ++ (pong.take 32 ++ sh.drop 43), ccs,
          fin.take 5 ++ ((pong.drop 32).take 16 ++ fin.drop 21) ]
    ∧ clientTls12ResumedPong mask (pong.take 32)
        (fin.take 5 ++ ((pong.drop 32).take 16 ++ fin.drop 21))
      = xorBytes (pong.take 32) mask ++ (pong.drop 32).take 16 := by
  have hp32 : (pong.take 32).length = 32 := length_take_of_le pong 32 (by omega)
  have hp16 : ((pong.drop 32).take 16).length = 16 := by
    rw [List.length_take, List.length_drop]
    omega
  have hshdec : sh = sh.take 11 ++ ((sh.drop 11).take 32 ++ sh.drop 43) := by
    have := xorRange_decompose sh (pong.take 32) 11 (by omega)
    rw [hp32] at this
    exact this
  have hfindec : fin = fin.take 5 ++ ((fin.drop 5).take 16 ++ fin.drop 21) := by
    have := xorRange_decompose fin ((pong.drop 32).take 16) 5 (by omega)
    rw [hp16] at this
    exact this
  constructor
  · have h1 : setRange sh 11 (pong.take 32) = sh.take 11 ++ (pong.take 32 ++ sh.drop 43) := by
      conv_lhs => rw [hshdec]
      exact setRange_concat _ _ _ _ 11 (length_take_of_le sh 11 (by omega))
        (by rw [List.length_take, List.length_drop, hp32]; omega)
    have h2 : setRange fin 5 ((pong.drop 32).take 16)
        = fin.take 5 ++ ((pong.drop 32).take 16 ++ fin.drop 21) := by
      conv_lhs => rw [hfindec]
      exact setRange_concat _ _ _ _ 5 (length_take_of_le fin 5 (by omega))
        (by rw [List.length_take, List.length_drop, hp16]; omega)
    simp only [serverTls12Resumed, SERVER_HELLO_RANDOM_START_INDEX, TLS_RECORD_HEADER_LENGTH,
      show (5 : Nat) + 6 = 11 from rfl, h1, h2]
  · simp only [clientTls12ResumedPong, TLS_RECORD_HEADER_LENGTH]
    have hsplit : (List.replicate 48 (0 : Nat))
        = List.replicate 32 0 ++ (List.replicate 16 0 ++ []) := by
      simp [← List.replicate_add]
    have hfb : ((fin.take 5 ++ ((pong.drop 32).take 16 ++ fin.drop 21)).drop 5).take 16
        = (pong.drop 32).take 16 := by
      rw [drop_at_append _ _ 5 (length_take_of_le fin 5 (by omega)),
        take_at_append _ _ 16 hp16]
    rw [hfb, hsplit,
      setRange_front (List.replicate 32 0) (List.replicate 16 0 ++ []) (pong.take 32)
        (by simp [hp32]),
      xorRange_front _ _ mask (by rw [hp32, hmask])]
    have hem : (xorBytes (pong.take 32) mask).length = 32 := by
      simp [xorBytes_length, hp32, hmask]
    rw [setRange_concat (xorBytes (pong.take 32) mask) (List.replicate 16 0) []
        ((pong.drop 32).take 16) 32 hem (by simp [hp16])]
    simp

/-- Witness for C4 at concrete records. -/
theorem tls12_resumed_forwarding_witness :
    serverTls12Resumed (List.replicate 48 4) (List.replicate 50 5) [20, 3, 3, 0, 1, 1]
        (List.replicate 30 6)
      = [ (List.replicate 50 5).take 11
            ++ ((List.replicate 48 4).take 32 ++ (List.replicate 50 5).drop 43),
          [20, 3, 3, 0, 1, 1],
          (List.replicate 30 6).take 5
            ++ (((List.replicate 48 4).drop 32).take 16 ++ (List.replicate 30 6).drop 21) ]
    ∧ clientTls12ResumedPong (List.replicate 32 8) ((List.replicate 48 4).take 32)
        ((List.replicate 30 6).take 5
          ++ (((List.replicate 48 4).drop 32).take 16 ++ (List.replicate 30 6).drop 21))
      = xorBytes ((List.replicate 48 4).take 32) (List.replicate 32 8)
          ++ ((List.replicate 48 4).drop 32).take 16 :=
  tls12_resumed_forwarding (List.replicate 48 4) (List.replicate 50 5) [20, 3, 3, 0, 1, 1]
    (List.replicate 30 6) (List.replicate 32 8) (by simp) (by simp) (by simp) (by simp)

/-! ## Claim C5 -/

/-- Dummy application_data record construction shared by the TLS 1.3 and
TLS 1.2 full-handshake server branches, `src/tunnel/src/server.rs` lines
198-205 and 257-265: the buffer is grown to `5 + len` without
initialization (`leftover` is the indeterminate prior content of length
`5 + len`), the header is set to `0x17 0x03 0x03 len_be16`, bytes 5..53
carry the masked pong, and `rand fill` covers only
`buf[5 + 48 .. len - 48]` (so `rnd` has length `len - 48 - 53`). -/
def buildDummyRecord (pong rnd leftover : Bytes) (len : Nat) : Bytes :=
  let buf := leftover
  let buf := setRange buf 0 [0x17, 0x03, 0x03]
  let buf := setRange buf 3 [len / 256 % 256, len % 256]
  let buf := setRange buf 5 pong
  setRange buf 53 rnd

/-- C5 evaluated at the failing input L = 108: the header and the masked
pong at body offsets 0..48 are as claimed, but the final 53 bytes of the
record -- body offsets 55..108, inside the range the claim says is filled
with random bytes -- retain the uninitialized buffer contents (here 9),
because the fill stops at `len - 48` instead of `5 + len`. -/
theorem dummy_record_tail_uninitialized :
    (buildDummyRecord (List.replicate 48 1) (List.replicate 7 2) (List.replicate 113 9) 108).take 5
      = [0x17, 0x03, 0x03, 0, 108]
    ∧ ((buildDummyRecord (List.replicate 48 1) (List.replicate 7 2)
        (List.replicate 113 9) 108).drop 5).take 48 = List.replicate 48 1
    ∧ (buildDummyRecord (List.replicate 48 1) (List.replicate 7 2)
        (List.replicate 113 9) 108).drop 60 = List.replicate 53 9 := by
  refine ⟨?_, ?_, ?_⟩ <;> rfl

/-! ## Claim C6 -/

/-- C6 counterexample: at the concrete user key `[1]` the point mask of
the client and server constructors is not the HMAC keyed by
`derive_psk(user key)`, and the TOTP binder is not keyed by the derived
PSK; both are keyed by the raw user key. -/
theorem mask_keyed_by_derived_psk_counterexample :
    (clientNew [1]).curvePointMask ≠ hmacModel NO_ELLIGATOR_WORKAROUND (derive_psk [1])
    ∧ (clientNew [1]).totpKey ≠ derive_psk [1]
    ∧ (serverNew [1]).curvePointMask ≠ hmacModel NO_ELLIGATOR_WORKAROUND (derive_psk [1])
    ∧ (serverNew [1]).totpKey ≠ derive_psk [1] := by
  refine ⟨?_, ?_, ?_, ?_⟩ <;> decide

/-- C6 amended: on both the client constructors (new delegates to
new_with_fingerprint) and the server constructor, the point mask is the
HMAC of the context string "noelligator" keyed by the RAW user key, the
TOTP binder is keyed by the raw user key (period 60, skew 2), and only
the Noise PSK field holds `derive_psk(user key)`. -/
theorem mask_and_totp_keyed_by_raw_key (userKey : Bytes) :
    clientNew userKey
      = ⟨derive_psk userKey, userKey, 60, 2, hmacModel NO_ELLIGATOR_WORKAROUND userKey⟩
    ∧ serverNew userKey
      = ⟨derive_psk userKey, userKey, 60, 2, hmacModel NO_ELLIGATOR_WORKAROUND userKey⟩ :=
  ⟨rfl, rfl⟩

/-! ## Claim C8 -/

/-- The TLS 1.2 resumed branch of `connect_with_early_data` after reading
the Finished record, `src/tunnel/src/client.rs` lines 221-234: the code
guards with `pong.len() < 16` -- where `pong` is the fixed 48-byte array,
not the received record -- and then copies `buf[5..5+16]` into
`pong[32..48]`.  `none` models the panic of a Rust slice operation whose
range exceeds the buffer; `Except.error` models the `InvalidData`
return. -/
def clientResumedFinishedStep (pong finRecord : Bytes) : Option (Except String Bytes) :=
  if pong.length < 16 then
    some (.error "Noise handshake failed due to message length shorter than expected")
  else if finRecord.length < TLS_RECORD_HEADER_LENGTH + 16 then
    none
  else
    some (.ok (setRange pong 32 ((finRecord.drop TLS_RECORD_HEADER_LENGTH).take 16)))

/-- C8 at the failing input: with the 48-byte pong array and a Finished
record of body length 0, the guard `pong.len() < 16` is false (48 is
never below 16), so the branch reaches the out-of-range slice copy and
panics (`none`) instead of returning the InvalidData error the claim
describes. -/
theorem client_short_finished_panics :
    (List.replicate 48 0 : Bytes).length = 48
    ∧ clientResumedFinishedStep (List.replicate 48 0) [0x16, 0x03, 0x03, 0, 0] = none := by
  exact ⟨by decide, rfl⟩

/-! ## Claim C10 -/

/-- `Client::connect` hello fields of the old implementation,
`src/snowy-tunnel/src/client.rs` lines 62-78: the 48-byte Noise message
of an empty payload gives `random = psk_e[0..32]` (no masking),
`session_id[0..16] = psk_e[32..48]`, and `session_id[16..32]` is the TOTP
signature of `psk_e[0..32]`. -/
def oldClientHelloFields (userKey eph : Bytes) (step : Nat) : HelloFields :=
  let psk_e := noiseWrite (derive_psk userKey) eph []
  { random := psk_e.take 32
    sessionId := (psk_e.drop 32).take 16 ++ totpSign userKey step (psk_e.take 32) 16 }

/-- `connect_with_early_data` hello fields of the new implementation with
zero early data (`Client::connect`), `src/tunnel/src/client.rs` lines
96-98 and 105-129. -/
def newClientHelloFields (userKey eph : Bytes) (step : Nat) : HelloFields :=
  clientBuildPing (clientNew userKey).key eph (clientNew userKey).curvePointMask
    (List.replicate 16 0) (totpGenerate (clientNew userKey).totpKey step 16)

/-- C10 counterexample: at the same concrete user key, clock step and
Noise ephemeral (and zero early data), the two client implementations
place different byte strings in the ClientHello `random` field, and
different byte strings in `session_id` as well. -/
theorem wire_equivalence_counterexample :
    (oldClientHelloFields [1] (List.replicate 32 0) 0).random
      ≠ (newClientHelloFields [1] (List.replicate 32 0) 0).random
    ∧ (oldClientHelloFields [1] (List.replicate 32 0) 0).sessionId
      ≠ (newClientHelloFields [1] (List.replicate 32 0) 0).sessionId := by
  refine ⟨?_, ?_⟩ <;> decide

/-- C10 amended: the two implementations are not wire-equivalent.  For
the same user key, clock step and Noise ephemeral, the old client places
the raw ephemeral in `random` while the new client places the ephemeral
XORed with the point mask `hmac("noelligator", key)`; the session_id
fields are built from different material (old: Noise tag of an empty
message followed by a TOTP signature of the ephemeral; new: Noise
ciphertext of the zero early data followed by the tag XORed with the TOTP
token). -/
theorem wire_equivalence_amended (userKey eph : Bytes) (stepOld stepNew : Nat)
    (heph : eph.length = 32) :
    (oldClientHelloFields userKey eph stepOld).random = eph
    ∧ (newClientHelloFields userKey eph stepNew).random
      = xorBytes eph (hmacModel NO_ELLIGATOR_WORKAROUND userKey)
    ∧ (oldClientHelloFields userKey eph stepOld).sessionId
      = noiseTag (derive_psk userKey) eph []
        ++ totpSign userKey stepOld eph 16
    ∧ (newClientHelloFields userKey eph stepNew).sessionId
      = xorBytes (List.replicate 16 0) (noiseKeystream (derive_psk userKey) eph)
        ++ xorBytes (noiseTag (derive_psk userKey) eph (List.replicate 16 0))
            (totpGenerate userKey stepNew 16) := by
  have hold : noiseWrite (derive_psk userKey) eph []
      = eph ++ ([] ++ noiseTag (derive_psk userKey) eph []) := rfl
  have htake : (noiseWrite (derive_psk userKey) eph []).take 32 = eph := by
    rw [hold, take_at_append eph _ 32 heph]
  have hnew := clientBuildPing_eq (derive_psk userKey) eph
    (hmacModel NO_ELLIGATOR_WORKAROUND userKey) (List.replicate 16 0)
    (totpGenerate userKey stepNew 16) heph (by simp) (hmacModel_length _ _)
    (totpSign_length userKey stepNew [])
  refine ⟨htake, ?_, ?_, ?_⟩
  · show (clientBuildPing (derive_psk userKey) eph (hmacModel NO_ELLIGATOR_WORKAROUND userKey)
      (List.replicate 16 0) (totpGenerate userKey stepNew 16)).random = _
    rw [hnew]
  · show ((noiseWrite (derive_psk userKey) eph []).drop 32).take 16
        ++ totpSign userKey stepOld ((noiseWrite (derive_psk userKey) eph []).take 32) 16 = _
    rw [htake, hold, drop_at_append eph _ 32 heph]
    simp [noiseTag_length]
  · show (clientBuildPing (derive_psk userKey) eph (hmacModel NO_ELLIGATOR_WORKAROUND userKey)
      (List.replicate 16 0) (totpGenerate userKey stepNew 16)).sessionId = _
    rw [hnew]

/-- Witness for the amended C10 at a concrete key and ephemeral. -/
theorem wire_equivalence_amended_witness :
    (oldClientHelloFields [1] (List.replicate 32 0) 0).random = List.replicate 32 0
    ∧ (newClientHelloFields [1] (List.replicate 32 0) 3).random
      = xorBytes (List.replicate 32 0) (hmacModel NO_ELLIGATOR_WORKAROUND [1])
    ∧ (oldClientHelloFields [1] (List.replicate 32 0) 0).sessionId
      = noiseTag (derive_psk [1]) (List.replicate 32 0) []
        ++ totpSign [1] 0 (List.replicate 32 0) 16
    ∧ (newClientHelloFields [1] (List.replicate 32 0) 3).sessionId
      = xorBytes (List.replicate 16 0) (noiseKeystream (derive_psk [1]) (List.replicate 32 0))
        ++ xorBytes (noiseTag (derive_psk [1]) (List.replicate 32 0) (List.replicate 16 0))
            (totpGenerate [1] 3 16) :=
  wire_equivalence_amended [1] (List.replicate 32 0) 0 3 (by simp)

/-! ## Claim C7 -/

/-- Result of one direction of the TLS 1.2 relay. -/
inductive CopyResult
  | ok (forwarded : Bytes)
  | invalidData
  | eof
deriving DecidableEq

/-- One direction of `relay_until_tls12_handshake_finished`,
`src/tunnel/src/server.rs` lines 326-371
(`copy_until_tls12_handshake_finished`): read a 5-byte record header,
read the body of the length the header declares, forward header and body
(`acc` accumulates the bytes written to the peer), then decide on the
record type: 0x16 (Handshake) keeps copying unless a ChangeCipherSpec was
already seen; 0x14 (ChangeCipherSpec) sets the flag on first sight and
otherwise falls through to the stop check; any other type is the
`InvalidData` protocol error; a short read is an I/O error (`eof`). -/
def copyUntil (input acc : Bytes) (seen : Bool) : CopyResult :=
  if h5 : input.length < 5 then .eof
  else
    let sz := input.getD 3 0 * 256 + input.getD 4 0
    if hsz : input.length < 5 + sz then .eof
    else
      let acc2 := acc ++ input.take (5 + sz)
      let rest := input.drop (5 + sz)
      if input.getD 0 0 = 0x16 then
        if seen then .ok acc2 else copyUntil rest acc2 seen
      else if input.getD 0 0 = 0x14 then
        if seen then .ok acc2 else copyUntil rest acc2 true
      else .invalidData
termination_by input.length
decreasing_by
  all_goals
    simp only [List.length_drop]
    omega

/-- A TLS record as relayed: type byte, two version bytes, body. -/
structure TlsRec where
  rtype : Nat
  v1 : Nat
  v2 : Nat
  body : Bytes

/-- The wire encoding of a record: type, version, big-endian body length,
body. -/
def encRec (r : TlsRec) : Bytes :=
  r.rtype :: r.v1 :: r.v2 :: r.body.length / 256 :: r.body.length % 256 :: r.body

/-- The wire encoding of a record sequence. -/
def encRecs : List TlsRec → Bytes
  | [] => []
  | r :: rs => encRec r ++ encRecs rs

theorem encRec_length (r : TlsRec) : (encRec r).length = 5 + r.body.length := by
  simp [encRec]
  omega

/-- One relay step over an encoded record. -/
theorem copyUntil_cons (r : TlsRec) (rest acc : Bytes) (seen : Bool)
    (hwf : r.body.length < 65536) :
    copyUntil (encRec r ++ rest) acc seen =
      if r.rtype = 0x16 then
        (if seen then .ok (acc ++ encRec r) else copyUntil rest (acc ++ encRec r) seen)
      else if r.rtype = 0x14 then
        (if seen then .ok (acc ++ encRec r) else copyUntil rest (acc ++ encRec r) true)
      else .invalidData := by
  have hlen : (encRec r).length = 5 + r.body.length := encRec_length r
  have hlen2 : (encRec r ++ rest).length = 5 + r.body.length + rest.length := by
    simp [hlen]
  have hget0 : (encRec r ++ rest).getD 0 0 = r.rtype := by
    simp [encRec]
  have hget3 : (encRec r ++ rest).getD 3 0 = r.body.length / 256 := by
    simp [encRec]
  have hget4 : (encRec r ++ rest).getD 4 0 = r.body.length % 256 := by
    simp [encRec]
  have hsz : r.body.length / 256 * 256 + r.body.length % 256 = r.body.length := by
    omega
  have htake : (encRec r ++ rest).take (5 + r.body.length) = encRec r := by
    rw [← hlen]
    exact take_at_append _ _ _ rfl
  have hdrop : (encRec r ++ rest).drop (5 + r.body.length) = rest := by
    rw [← hlen]
    exact drop_at_append _ _ _ rfl
  rw [copyUntil]
  rw [dif_neg (by omega)]
  simp only [hget0, hget3, hget4, hsz]
  rw [dif_neg (by omega)]
  rw [htake, hdrop]

/-- Handshake-typed records before the first ChangeCipherSpec are copied
through without stopping. -/
theorem copyUntil_hs_front (hs : List TlsRec) (rest acc : Bytes)
    (hhs : ∀ r ∈ hs, r.rtype = 0x16 ∧ r.body.length < 65536) :
    copyUntil (encRecs hs ++ rest) acc false = copyUntil rest (acc ++ encRecs hs) false := by
  induction hs generalizing acc with
  | nil => simp [encRecs]
  | cons r rs ih =>
    have hr := hhs r (List.mem_cons_self r rs)
    have hrs : ∀ s ∈ rs, s.rtype = 0x16 ∧ s.body.length < 65536 :=
      fun s hsmem => hhs s (List.mem_cons_of_mem r hsmem)
    show copyUntil ((encRec r ++ encRecs rs) ++ rest) acc false = _
    rw [List.append_assoc, copyUntil_cons r _ acc false hr.2, if_pos hr.1, if_neg Bool.false_ne_true,
      ih (acc ++ encRec r) hrs, encRecs, ← List.append_assoc]

/-- C7 counterexample: the relay direction terminates successfully on a
ChangeCipherSpec record followed by a second ChangeCipherSpec record,
although no Handshake (0x16) record appears in the input at all, contrary
to the claim that success comes exactly after one ChangeCipherSpec
followed by one Handshake record. -/
theorem relay_stops_without_handshake :
    copyUntil [0x14, 3, 3, 0, 0, 0x14, 3, 3, 0, 0] [] false
      = .ok [0x14, 3, 3, 0, 0, 0x14, 3, 3, 0, 0]
    ∧ (0x16 : Nat) ∉ [0x14, 3, 3, 0, 0, 0x14, 3, 3, 0, 0] := by
  constructor
  · have h1 := copyUntil_cons ⟨0x14, 3, 3, []⟩ [0x14, 3, 3, 0, 0] [] false (by decide)
    have h2 := copyUntil_cons ⟨0x14, 3, 3, []⟩ [] [0x14, 3, 3, 0, 0] true (by decide)
    simp only [encRec, show ((0x14 : Nat) = 0x16) = False by decide] at h1 h2
    simpa using h1.trans (by simpa using h2)
  · decide

/-- C7 amended: each relay direction forwards records unmodified (5-byte
header plus the body the header declares) and terminates successfully
exactly after one ChangeCipherSpec record followed by one further record
of type ChangeCipherSpec or Handshake, any earlier records being
Handshake-typed; a record of any type other than 0x14/0x16, whether it
appears before or after the ChangeCipherSpec, yields the InvalidData
protocol error. -/
theorem relay_forward_and_stop (hs : List TlsRec) (c x b : TlsRec) (rest rest2 acc : Bytes)
    (hhs : ∀ r ∈ hs, r.rtype = 0x16 ∧ r.body.length < 65536)
    (hc : c.rtype = 0x14) (hcwf : c.body.length < 65536)
    (hx : x.rtype = 0x14 ∨ x.rtype = 0x16) (hxwf : x.body.length < 65536)
    (hb : b.rtype ≠ 0x14 ∧ b.rtype ≠ 0x16) (hbwf : b.body.length < 65536) :
    copyUntil (encRecs hs ++ (encRec c ++ (encRec x ++ rest))) acc false
        = .ok (acc ++ (encRecs hs ++ (encRec c ++ encRec x)))
    ∧ copyUntil (encRecs hs ++ (encRec b ++ rest2)) acc false = .invalidData
    ∧ copyUntil (encRecs hs ++ (encRec c ++ (encRec b ++ rest2))) acc false = .invalidData := by
  have hcstep : ∀ rest3 : Bytes, copyUntil (encRec c ++ rest3) (acc ++ encRecs hs) false
      = copyUntil rest3 (acc ++ encRecs hs ++ encRec c) true := by
    intro rest3
    rw [copyUntil_cons c rest3 _ false hcwf, if_neg (by rw [hc]; decide), if_pos hc,
      if_neg Bool.false_ne_true]
  have hbstep : ∀ acc2 : Bytes, ∀ seen : Bool,
      copyUntil (encRec b ++ rest2) acc2 seen = .invalidData := by
    intro acc2 seen
    rw [copyUntil_cons b rest2 acc2 seen hbwf, if_neg hb.2, if_neg hb.1]
  refine ⟨?_, ?_, ?_⟩
  · rw [copyUntil_hs_front hs _ acc hhs, hcstep, copyUntil_cons x rest _ true hxwf]
    rcases hx with hx14 | hx16
    · rw [if_neg (by rw [hx14]; decide), if_pos hx14, if_pos rfl]
      simp [List.append_assoc]
    · rw [if_pos hx16, if_pos rfl]
      simp [List.append_assoc]
  · rw [copyUntil_hs_front hs _ acc hhs, hbstep]
  · rw [copyUntil_hs_front hs _ acc hhs, hcstep, hbstep]

/-- Witness for the amended C7 at concrete records. -/
theorem relay_forward_and_stop_witness :
    copyUntil (encRecs [⟨0x16, 3, 3, [1]⟩]
        ++ (encRec ⟨0x14, 3, 3, [1]⟩ ++ (encRec ⟨0x16, 3, 3, [2, 3]⟩ ++ [9, 9]))) [] false
        = .ok ([] ++ (encRecs [⟨0x16, 3, 3, [1]⟩]
            ++ (encRec ⟨0x14, 3, 3, [1]⟩ ++ encRec ⟨0x16, 3, 3, [2, 3]⟩)))
    ∧ copyUntil (encRecs [⟨0x16, 3, 3, [1]⟩] ++ (encRec ⟨0x17, 3, 3, []⟩ ++ [7])) [] false
        = .invalidData
    ∧ copyUntil (encRecs [⟨0x16, 3, 3, [1]⟩]
        ++ (encRec ⟨0x14, 3, 3, [1]⟩ ++ (encRec ⟨0x17, 3, 3, []⟩ ++ [7]))) [] false
        = .invalidData :=
  relay_forward_and_stop [⟨0x16, 3, 3, [1]⟩] ⟨0x14, 3, 3, [1]⟩ ⟨0x16, 3, 3, [2, 3]⟩
    ⟨0x17, 3, 3, []⟩ [9, 9] [7] []
    (by intro r hr; simp at hr; subst hr; exact ⟨rfl, by decide⟩)
    rfl (by decide) (Or.inr rfl) (by decide) (by decide) (by decide)

end NoisyShuttle
